import Mathlib

/-!
Verification of the singleton subsystem of the design-patterns sandbox
(src/singleton/meta.py, src/singleton/sequence_generator.py,
src/singleton/audit.py).

The two metaclasses keep a single class-level dictionary `__instances`
(managed class -> stored instance) and, in the lazy case, a single
class-level `Lock` object `__lock`.  Both attributes live on the metaclass
itself, so they are shared by every managed class.  Because the lazy
`__call__` holds that one lock for its whole body, every execution is a
sequence of atomic calls; we therefore model a concurrent history as a
list of (key, args) requests executed in the serialization order, which
is faithful to the Python code.

The registry is modelled as a function from managed-type keys to the
optional stored instance; `construct` stands for `super().__call__`,
i.e. running the managed class's `__new__`/`__init__` with the caller's
arguments.
-/

variable {K A I Err : Type}

/-- The `__instances` dictionary of a singleton metaclass, as a map from
managed-type key to the stored instance (`none` when no instance has been
stored for that key). -/
abbrev Registry (K I : Type) := K → Option I

/-- The dictionary before any managed class has been instantiated. -/
def Registry.empty : Registry K I := fun _ => none

/-- `cls.__instances[cls] = i`: store instance `i` under key `k`. -/
def Registry.store [DecidableEq K] (reg : Registry K I) (k : K) (i : I) : Registry K I :=
  fun k2 => if k2 = k then some i else reg k2

/-- Outcome of one execution of `SingletonMetaLazy.__call__`:
the dictionary afterwards, the returned instance, whether
`super().__call__` (construction) ran during this call, and how many
times the call acquired the shared metaclass-level lock `__lock`. -/
structure CallStep (K I : Type) where
  registry : Registry K I
  result : I
  constructed : Bool
  lockAcquisitions : Nat

/-- `SingletonMetaLazy.__call__` (src/singleton/meta.py, lines 13-28) with a
non-raising constructor.  The body is `with cls.__lock: if cls not in
cls.__instances: cls.__instances[cls] = super().__call__(*args, **kwargs)`
followed by `return cls.__instances[cls]`; the lock is acquired
unconditionally, before the membership test. -/
def lazyCall [DecidableEq K] (construct : K → A → I) (reg : Registry K I) (k : K) (a : A) :
    CallStep K I :=
  match reg k with
  | some i => ⟨reg, i, false, 1⟩
  | none => ⟨reg.store k (construct k a), construct k a, true, 1⟩

/-- `SingletonMetaLazy.__call__` with a constructor that may raise: a raise
inside the `with` block releases the lock, leaves `__instances` untouched
and propagates the exception to the caller; the trailing
`return cls.__instances[cls]` is not reached. -/
def lazyCallE [DecidableEq K] (construct : K → A → Except Err I) (reg : Registry K I)
    (k : K) (a : A) : Registry K I × Except Err I :=
  match reg k with
  | some i => (reg, Except.ok i)
  | none =>
    match construct k a with
    | Except.ok i => (reg.store k i, Except.ok i)
    | Except.error e => (reg, Except.error e)

/-- `SingletonMetaEager.__new__` (src/singleton/meta.py, lines 39-53): at
class-definition time the metaclass constructs the single instance with
`super().__call__(new_cls)`, which (class-mode `super` inside `__new__`)
is `type.__call__(new_cls)`, i.e. `new_cls()` with no caller-supplied
arguments, and stores it in `__instances`.  `constructDefault k` stands
for that no-argument construction of the managed class `k`. -/
def eagerNew [DecidableEq K] (constructDefault : K → I) (reg : Registry K I) (k : K) :
    Registry K I :=
  reg.store k (constructDefault k)

/-- `SingletonMetaEager.__call__` (src/singleton/meta.py, lines 55-60): every
request simply returns `cls.__instances[cls]`; the caller's arguments are
received and ignored. -/
def eagerCall (reg : Registry K I) (k : K) (_a : A) : Option I := reg k

/-- Record of one request in a history: the requested key, the instance the
caller received, and whether this request ran the constructor. -/
structure CallRecord (K I : Type) where
  key : K
  inst : I
  constructed : Bool

/-- Serialized execution of a list of `(key, args)` requests through
`SingletonMetaLazy.__call__`, starting from a given dictionary; returns the
final dictionary and the per-request records in order. -/
def runLazy [DecidableEq K] (construct : K → A → I) :
    Registry K I → List (K × A) → Registry K I × List (CallRecord K I)
  | reg, [] => (reg, [])
  | reg, (k, a) :: ps =>
    ((runLazy construct (lazyCall construct reg k a).registry ps).1,
      ⟨k, (lazyCall construct reg k a).result, (lazyCall construct reg k a).constructed⟩ ::
        (runLazy construct (lazyCall construct reg k a).registry ps).2)

/-- Number of requests in a history that ran the constructor for key `k`. -/
def constructionsFor [DecidableEq K] : List (CallRecord K I) → K → Nat
  | [], _ => 0
  | o :: outs, k => (if o.key = k ∧ o.constructed = true then 1 else 0) + constructionsFor outs k

/-- The instances returned to the requests for key `k`, in order. -/
def resultsFor [DecidableEq K] : List (CallRecord K I) → K → List I
  | [], _ => []
  | o :: outs, k => if o.key = k then o.inst :: resultsFor outs k else resultsFor outs k

/-- The arguments of the first request for key `k` in a history, if any. -/
def firstArgsFor [DecidableEq K] (ps : List (K × A)) (k : K) : Option A :=
  (ps.find? fun p => decide (p.1 = k)).map Prod.snd

/-!
src/singleton/sequence_generator.py.  Each generator instance holds an
integer `current` and its own `Lock`; `get_next_number` runs entirely under
that lock, so each call is one atomic step on the counter state (the lock
itself carries no observable state and is not modelled as a field).
-/

/-- State of a `SequenceGeneratorLazy` instance: the `current` counter set
by `__init__` (`self.current = start`). -/
structure SequenceGeneratorLazy where
  current : Int
deriving DecidableEq

/-- `SequenceGeneratorLazy.__init__` (default `start = 0`). -/
def SequenceGeneratorLazy.init (start : Int) : SequenceGeneratorLazy :=
  { current := start }

/-- `SequenceGeneratorLazy.get_next_number` (src/singleton/sequence_generator.py,
lines 49-56): under the instance lock, `self.current += 1; return self.current`.
Returns the new state and the returned value. -/
def SequenceGeneratorLazy.get_next_number (s : SequenceGeneratorLazy) :
    SequenceGeneratorLazy × Int :=
  ({ current := s.current + 1 }, s.current + 1)

/-- State of a `SequenceGeneratorEager` instance: the `current` counter set
by `__init__` (default `start = 0`, which is what eager construction uses). -/
structure SequenceGeneratorEager where
  current : Int
deriving DecidableEq

/-- `SequenceGeneratorEager.__init__` (default `start = 0`). -/
def SequenceGeneratorEager.init (start : Int) : SequenceGeneratorEager :=
  { current := start }

/-- `SequenceGeneratorEager.get_next_number` (src/singleton/sequence_generator.py,
lines 98-105): under the instance lock, `self.current += 1; return self.current`. -/
def SequenceGeneratorEager.get_next_number (s : SequenceGeneratorEager) :
    SequenceGeneratorEager × Int :=
  ({ current := s.current + 1 }, s.current + 1)

/-- Serialization of `n` atomic `get_next_number` calls on one lazy generator
instance: because every call runs under the instance's lock, any concurrent
schedule of `n` calls (for example 4 threads of 5 calls each) executes as
some sequence of `n` atomic calls on the shared state; this function returns
the final state and the values handed out, in serialization order. -/
def SequenceGeneratorLazy.run (s : SequenceGeneratorLazy) :
    Nat → SequenceGeneratorLazy × List Int
  | 0 => (s, [])
  | n + 1 =>
    ((SequenceGeneratorLazy.run s.get_next_number.1 n).1,
      s.get_next_number.2 :: (SequenceGeneratorLazy.run s.get_next_number.1 n).2)

/-!
src/singleton/audit.py.  `FileAuditManagerLazy` and `FileAuditManagerEager`
have line-for-line identical `__init__` bodies (apart from the default
filename), `audit` bodies and `__del__` bodies; they differ only in the
metaclass governing construction, which is covered by the registry model
above.  We therefore embed the shared behaviour once as `FileAuditManager`.

The file system side is modelled at byte (character) level.  `os.open(
filename, os.O_WRONLY | os.O_CREAT)` creates the file empty when absent,
keeps the existing bytes when present (no `O_TRUNC`), and positions the
descriptor's offset at 0 (no `O_APPEND`).  `os.write` overwrites the bytes
at the current offset and advances the offset; `os.fsync` makes the write
durable, so the modelled `content` is always the durable on-disk content.
In every trace below the offset never exceeds the content length, so the
overwrite-and-extend formula is the exact POSIX behaviour.
-/

/-- Decimal rendering of a natural number, as Python's `str` produces inside
the f-string.  The fuel argument only makes the recursion structural so the
function reduces definitionally; `n + 1` units of fuel always cover the at
most `n + 1` digits. -/
def natDigitsAux : Nat → Nat → List Char
  | 0, _ => []
  | fuel + 1, n =>
    if n < 10 then [Char.ofNat (48 + n)]
    else natDigitsAux fuel (n / 10) ++ [Char.ofNat (48 + n % 10)]

/-- Decimal digits of `n` (the embedding of Python `str(n)` for `n ≥ 0`). -/
def natDigits (n : Nat) : List Char := natDigitsAux (n + 1) n

/-- The bytes written by one `audit` call (src/singleton/audit.py, line 39 /
line 82): `f'{timestamp}: {message}; counter: {self.__counter}\n'.encode()`,
with `ts` the value of `datetime.now().strftime('%Y-%m-%d %H:%M:%S')`. -/
def auditLine (ts msg : String) (n : Nat) : List Char :=
  ts.data ++ (": ").data ++ msg.data ++ ("; counter: ").data ++ natDigits n ++ ['\n']

/-- An open file descriptor: the durable file content and the descriptor's
current offset. -/
structure FileState where
  content : List Char
  offset : Nat
deriving DecidableEq

/-- POSIX write of `data` at offset `off` into `content` (overwrite in
place, extending the file when the write runs past the end); exact for
`off ≤ content.length`, which holds throughout every modelled trace. -/
def writeAt (content : List Char) (off : Nat) (data : List Char) : List Char :=
  content.take off ++ data ++ content.drop (off + data.length)

/-- `os.open(filename, os.O_WRONLY | os.O_CREAT)`: create empty if absent
(`existing = none`), keep existing bytes otherwise (no `O_TRUNC`), offset 0
(no `O_APPEND`). -/
def osOpenWronlyCreat (existing : Option (List Char)) : FileState :=
  { content := existing.getD [], offset := 0 }

/-- `os.write(fd, data)` followed by `os.fsync(fd)`: write at the current
offset and advance it; the resulting content is durable. -/
def osWrite (f : FileState) (data : List Char) : FileState :=
  { content := writeAt f.content f.offset data, offset := f.offset + data.length }

/-- State of a `FileAuditManagerLazy` / `FileAuditManagerEager` instance:
`self.filename`, `self.__counter`, and `self.__fd` (`some` while the
descriptor is open, `none` after `__del__` sets it to `None`). -/
structure FileAuditManager where
  filename : String
  counter : Nat
  fd : Option FileState
deriving DecidableEq

/-- `FileAuditManagerLazy.__init__` (src/singleton/audit.py, lines 16-28) and
`FileAuditManagerEager.__init__` (lines 59-71): open (creating if absent)
the file write-only and start the counter at 0.  `existing` is the content
the file system already holds under `filename`, `none` when the file is
absent. -/
def FileAuditManager.init (filename : String) (existing : Option (List Char)) :
    FileAuditManager :=
  { filename := filename, counter := 0, fd := some (osOpenWronlyCreat existing) }

/-- `audit` (src/singleton/audit.py, lines 30-41 and 73-84): under the
instance lock, take the timestamp, increment `self.__counter`, write the
formatted line and fsync.  `os.write(None, ...)` after `__del__` would
raise a `TypeError`. -/
def FileAuditManager.audit (s : FileAuditManager) (ts msg : String) :
    Except String FileAuditManager :=
  match s.fd with
  | some f =>
    Except.ok { s with counter := s.counter + 1,
                       fd := some (osWrite f (auditLine ts msg (s.counter + 1))) }
  | none => Except.error "TypeError"

/-- `__del__` (src/singleton/audit.py, lines 43-49 and 86-92): `os.close(
self.__fd); self.__fd = None`.  When `__fd` is already `None`, `os.close(
None)` raises a `TypeError` before anything else happens. -/
def FileAuditManager.del (s : FileAuditManager) : Except String FileAuditManager :=
  match s.fd with
  | some _ => Except.ok { s with fd := none }
  | none => Except.error "TypeError"

/-- Serialized execution of a list of `(timestamp, message)` audit calls on
one manager instance (each call is atomic under the instance lock). -/
def FileAuditManager.runAudit (s : FileAuditManager) :
    List (String × String) → Except String FileAuditManager
  | [] => Except.ok s
  | (ts, msg) :: ps =>
    match s.audit ts msg with
    | Except.ok s2 => FileAuditManager.runAudit s2 ps
    | Except.error e => Except.error e

/-- Specification-side description of the log produced by a sequence of
audit calls entered with the counter at `c`: the concatenation, in call
order, of one formatted line per call, with counter values
`c + 1, c + 2, ...`. -/
def expectedLog : Nat → List (String × String) → List Char
  | _, [] => []
  | c, (ts, msg) :: ps => auditLine ts msg (c + 1) ++ expectedLog (c + 1) ps

/-- File content held under the audit filename before the logger is
constructed, for exercising a construction over a file left by an earlier
run (one complete line from that run). -/
def preexistingContent : List Char :=
  ("2025-06-01 09:00:00: entry from a previous run; counter: 1\n").data

/-- Final durable file content of an audit run, `[]` when the run raised. -/
def contentAfter (r : Except String FileAuditManager) : List Char :=
  match r with
  | Except.ok s => (s.fd.map FileState.content).getD []
  | Except.error _ => []

/-- Final counter of an audit run, `0` when the run raised. -/
def counterAfter (r : Except String FileAuditManager) : Nat :=
  match r with
  | Except.ok s => s.counter
  | Except.error _ => 0

theorem Registry.store_self [DecidableEq K] (reg : Registry K I) (k : K) (i : I) :
    reg.store k i k = some i := by
  simp [Registry.store]

theorem Registry.store_other [DecidableEq K] (reg : Registry K I) (k k2 : K) (i : I)
    (h : k2 ≠ k) : reg.store k i k2 = reg k2 := by
  simp [Registry.store, h]

theorem lazyCall_stored [DecidableEq K] (construct : K → A → I) (reg : Registry K I)
    (k : K) (a : A) (i : I) (h : reg k = some i) :
    lazyCall construct reg k a = ⟨reg, i, false, 1⟩ := by
  simp [lazyCall, h]

theorem lazyCall_new [DecidableEq K] (construct : K → A → I) (reg : Registry K I)
    (k : K) (a : A) (h : reg k = none) :
    lazyCall construct reg k a = ⟨reg.store k (construct k a), construct k a, true, 1⟩ := by
  simp [lazyCall, h]

theorem lazyCall_registry_other [DecidableEq K] (construct : K → A → I) (reg : Registry K I)
    (k2 k : K) (a : A) (h : k2 ≠ k) :
    (lazyCall construct reg k a).registry k2 = reg k2 := by
  unfold lazyCall
  cases hr : reg k <;> simp [Registry.store, h]

/-- Once an instance is stored for `k`, any further history leaves it in
place, never re-runs the constructor for `k`, and hands the stored
instance to every request for `k`. -/
theorem runLazy_of_stored [DecidableEq K] (construct : K → A → I) (k : K) (i : I) :
    ∀ (ps : List (K × A)) (reg : Registry K I), reg k = some i →
      (runLazy construct reg ps).1 k = some i ∧
      constructionsFor (runLazy construct reg ps).2 k = 0 ∧
      ∀ j ∈ resultsFor (runLazy construct reg ps).2 k, j = i := by
  intro ps
  induction ps with
  | nil =>
    intro reg h
    simp [runLazy, constructionsFor, resultsFor, h]
  | cons p ps ih =>
    obtain ⟨k2, a⟩ := p
    intro reg h
    by_cases hk : k2 = k
    · subst hk
      rw [runLazy]
      rw [lazyCall_stored construct reg k2 a i h]
      have tail := ih reg h
      refine ⟨tail.1, ?_, ?_⟩
      · simp [constructionsFor, tail.2.1]
      · intro j hj
        simp [resultsFor] at hj
        rcases hj with hj | hj
        · exact hj
        · exact tail.2.2 j hj
    · rw [runLazy]
      have hreg : (lazyCall construct reg k2 a).registry k = reg k := by
        exact lazyCall_registry_other construct reg k k2 a (fun he => hk he.symm)
      have tail := ih (lazyCall construct reg k2 a).registry (by rw [hreg]; exact h)
      refine ⟨tail.1, ?_, ?_⟩
      · simp [constructionsFor, hk, tail.2.1]
      · intro j hj
        simp [resultsFor, hk] at hj
        exact tail.2.2 j hj

theorem digitChar_ne_newline (d : Nat) (hd : d < 10) : Char.ofNat (48 + d) ≠ '\n' := by
  interval_cases d <;> decide

theorem newline_not_mem_natDigitsAux : ∀ (fuel n : Nat), '\n' ∉ natDigitsAux fuel n := by
  intro fuel
  induction fuel with
  | zero => intro n; simp [natDigitsAux]
  | succ fuel ih =>
    intro n
    by_cases h : n < 10
    · rw [natDigitsAux]
      simp [h]
      exact fun he => digitChar_ne_newline n h he.symm
    · rw [natDigitsAux]
      simp [h]
      refine ⟨ih _, ?_⟩
      exact fun he => digitChar_ne_newline (n % 10) (Nat.mod_lt _ (by omega)) he.symm

theorem newline_not_mem_natDigits (n : Nat) : '\n' ∉ natDigits n :=
  newline_not_mem_natDigitsAux (n + 1) n

/-- With newline-free timestamp and message, an audit line contains exactly
one newline (its final byte), hence is exactly one line of the file. -/
theorem count_newline_auditLine (ts msg : String) (n : Nat)
    (hts : '\n' ∉ ts.data) (hmsg : '\n' ∉ msg.data) :
    (auditLine ts msg n).count '\n' = 1 := by
  have h1 : ((": ").data).count '\n' = 0 := by decide
  have h2 : (("; counter: ").data).count '\n' = 0 := by decide
  simp [auditLine, List.count_append, h1, h2,
        List.count_eq_zero.mpr hts, List.count_eq_zero.mpr hmsg,
        List.count_eq_zero.mpr (newline_not_mem_natDigits n)]

theorem expectedLog_count_newline :
    ∀ (ps : List (String × String)) (c : Nat),
      (∀ p ∈ ps, '\n' ∉ (Prod.fst p).data ∧ '\n' ∉ (Prod.snd p).data) →
      (expectedLog c ps).count '\n' = ps.length := by
  intro ps
  induction ps with
  | nil => intro c _; simp [expectedLog]
  | cons p ps ih =>
    obtain ⟨ts, msg⟩ := p
    intro c h
    have hp := h (ts, msg) (List.mem_cons_self _ _)
    rw [expectedLog, List.count_append, count_newline_auditLine ts msg (c + 1) hp.1 hp.2,
        ih (c + 1) (fun q hq => h q (List.mem_cons_of_mem _ hq))]
    simp [Nat.add_comm]

theorem writeAt_at_end (content data : List Char) :
    writeAt content content.length data = content ++ data := by
  simp [writeAt, List.drop_eq_nil_of_le]

/-- A write through a descriptor whose offset sits at the end of the file
appends, and the offset again sits at the end. -/
theorem osWrite_at_end (f : FileState) (data : List Char)
    (hoff : f.offset = f.content.length) :
    osWrite f data = ⟨f.content ++ data, f.content.length + data.length⟩ := by
  simp [osWrite, hoff, writeAt_at_end]

/-- Running audit calls through a descriptor positioned at end-of-file
appends exactly the expected log and advances the counter by the number of
calls. -/
theorem runAudit_ok :
    ∀ (ps : List (String × String)) (s : FileAuditManager) (f : FileState),
      s.fd = some f → f.offset = f.content.length →
      FileAuditManager.runAudit s ps =
        Except.ok { filename := s.filename, counter := s.counter + ps.length,
                    fd := some ⟨f.content ++ expectedLog s.counter ps,
                                f.content.length + (expectedLog s.counter ps).length⟩ } := by
  intro ps
  induction ps with
  | nil =>
    intro s f hfd hoff
    obtain ⟨fn, c, fd⟩ := s
    obtain ⟨cont, off⟩ := f
    simp at hfd
    simp [FileAuditManager.runAudit, expectedLog, hfd]
    simp at hoff
    exact hoff
  | cons p ps ih =>
    obtain ⟨ts, msg⟩ := p
    intro s f hfd hoff
    have hstep : FileAuditManager.audit s ts msg =
        Except.ok { filename := s.filename, counter := s.counter + 1,
                    fd := some ⟨f.content ++ auditLine ts msg (s.counter + 1),
                                f.content.length + (auditLine ts msg (s.counter + 1)).length⟩ } := by
      simp only [FileAuditManager.audit, hfd]
      rw [osWrite_at_end f _ hoff]
    rw [FileAuditManager.runAudit, hstep]
    refine Eq.trans (ih { filename := s.filename, counter := s.counter + 1,
                          fd := some ⟨f.content ++ auditLine ts msg (s.counter + 1),
                                      f.content.length +
                                        (auditLine ts msg (s.counter + 1)).length⟩ }
        ⟨f.content ++ auditLine ts msg (s.counter + 1),
         f.content.length + (auditLine ts msg (s.counter + 1)).length⟩ rfl (by simp)) ?_
    simp [expectedLog, List.append_assoc, List.length_append]
    omega

/-- From a state where no instance is stored for `k`, a history whose first
request for `k` carries arguments `a1` constructs exactly once for `k`
(namely with `a1`) and hands `construct k a1` to every request for `k`. -/
theorem runLazy_of_absent [DecidableEq K] (construct : K → A → I) (k : K) :
    ∀ (ps : List (K × A)) (reg : Registry K I) (a1 : A), reg k = none →
      firstArgsFor ps k = some a1 →
      (runLazy construct reg ps).1 k = some (construct k a1) ∧
      constructionsFor (runLazy construct reg ps).2 k = 1 ∧
      ∀ j ∈ resultsFor (runLazy construct reg ps).2 k, j = construct k a1 := by
  intro ps
  induction ps with
  | nil =>
    intro reg a1 hnone hf
    simp [firstArgsFor] at hf
  | cons p ps ih =>
    obtain ⟨k2, a⟩ := p
    intro reg a1 hnone hf
    by_cases hk : k2 = k
    · subst hk
      have ha : a = a1 := by
        simp [firstArgsFor, List.find?] at hf
        exact hf
      subst ha
      rw [runLazy]
      rw [lazyCall_new construct reg k2 a hnone]
      have tail := runLazy_of_stored construct k2 (construct k2 a)
        ps (reg.store k2 (construct k2 a)) (Registry.store_self reg k2 (construct k2 a))
      refine ⟨tail.1, ?_, ?_⟩
      · simp [constructionsFor, tail.2.1]
      · intro j hj
        simp [resultsFor] at hj
        rcases hj with hj | hj
        · exact hj
        · exact tail.2.2 j hj
    · have hf2 : firstArgsFor ps k = some a1 := by
        simp [firstArgsFor, List.find?, hk] at hf
        simp [firstArgsFor]
        exact hf
      rw [runLazy]
      have hreg : (lazyCall construct reg k2 a).registry k = reg k := by
        exact lazyCall_registry_other construct reg k k2 a (fun he => hk he.symm)
      have tail := ih (lazyCall construct reg k2 a).registry a1 (by rw [hreg]; exact hnone) hf2
      refine ⟨tail.1, ?_, ?_⟩
      · simp [constructionsFor, hk, tail.2.1]
      · intro j hj
        simp [resultsFor, hk] at hj
        exact tail.2.2 j hj

/-- C1: Singleton uniqueness.  Lazy policy: any serialized history of
requests from the empty registry whose first request for managed type `k`
carries arguments `a1` runs the constructor for `k` exactly once, every
request for `k` receives that one constructed instance `construct k a1`,
and it is the instance the registry holds afterwards.  Eager policy: the
single instance is the one constructed at class-definition time, and every
request, with any arguments, receives exactly it.  (The lazy metaclass's
single lock serializes the calls, so histories cover all concurrent
schedules.) -/
theorem singleton_uniqueness [DecidableEq K] (construct : K → A → I)
    (constructDefault : K → I) (ps : List (K × A)) (k : K) (a1 : A)
    (h1 : firstArgsFor ps k = some a1) :
    (constructionsFor (runLazy construct Registry.empty ps).2 k = 1 ∧
      (∀ j ∈ resultsFor (runLazy construct Registry.empty ps).2 k, j = construct k a1) ∧
      (runLazy construct Registry.empty ps).1 k = some (construct k a1)) ∧
    (∀ a : A, eagerCall (eagerNew constructDefault Registry.empty k) k a =
      some (constructDefault k)) := by
  have hmain := runLazy_of_absent construct k ps Registry.empty a1 rfl h1
  refine ⟨⟨hmain.2.1, hmain.2.2, hmain.1⟩, ?_⟩
  intro a
  simp [eagerCall, eagerNew, Registry.store]

theorem singleton_uniqueness_witness :
    firstArgsFor [((0 : Nat), (5 : Nat)), (0, 9)] 0 = some 5 ∧
    ((constructionsFor
        (runLazy (fun _ a => a) Registry.empty [((0 : Nat), (5 : Nat)), (0, 9)]).2 0 = 1 ∧
      (∀ j ∈ resultsFor
        (runLazy (fun _ a => a) Registry.empty [((0 : Nat), (5 : Nat)), (0, 9)]).2 0, j = 5) ∧
      (runLazy (fun _ a => a) Registry.empty [((0 : Nat), (5 : Nat)), (0, 9)]).1 0 = some 5) ∧
    (∀ a : Nat, eagerCall (eagerNew (fun _ => (7 : Nat)) Registry.empty 0) 0 a = some 7)) :=
  ⟨by decide, singleton_uniqueness (fun _ a => a) (fun _ => 7) [(0, 5), (0, 9)] 0 5 (by decide)⟩

/-- C2: Failed construction is retryable and does not poison the registry.
If no instance is stored for `k` and the constructor raises on arguments
`a`, the exception propagates to the caller and `__instances` is left
unchanged; a subsequent request for `k` runs the constructor again, and on
success stores and returns the new instance. -/
theorem failed_construction_retryable [DecidableEq K]
    (construct : K → A → Except Err I) (reg : Registry K I) (k : K) (a a2 : A)
    (e : Err) (i : I) (hnone : reg k = none)
    (hfail : construct k a = Except.error e) (hok : construct k a2 = Except.ok i) :
    lazyCallE construct reg k a = (reg, Except.error e) ∧
    lazyCallE construct (lazyCallE construct reg k a).1 k a2 =
      (reg.store k i, Except.ok i) := by
  have h1 : lazyCallE construct reg k a = (reg, Except.error e) := by
    simp [lazyCallE, hnone, hfail]
  refine ⟨h1, ?_⟩
  rw [h1]
  simp [lazyCallE, hnone, hok]

theorem failed_construction_retryable_witness :
    (Registry.empty : Registry Nat Nat) 0 = none ∧
    (fun (_ : Nat) (a : Nat) =>
      if a = 0 then Except.error "boom" else Except.ok a) 0 0 = Except.error "boom" ∧
    (fun (_ : Nat) (a : Nat) =>
      if a = 0 then Except.error "boom" else Except.ok a) 0 3 = Except.ok 3 ∧
    (lazyCallE (fun (_ : Nat) (a : Nat) =>
        if a = 0 then Except.error "boom" else Except.ok a) Registry.empty 0 0 =
      (Registry.empty, Except.error "boom") ∧
     lazyCallE (fun (_ : Nat) (a : Nat) =>
        if a = 0 then Except.error "boom" else Except.ok a)
        (lazyCallE (fun (_ : Nat) (a : Nat) =>
          if a = 0 then Except.error "boom" else Except.ok a) Registry.empty 0 0).1 0 3 =
      (Registry.empty.store 0 3, Except.ok 3)) :=
  ⟨rfl, rfl, rfl,
    failed_construction_retryable
      (fun _ a => if a = 0 then Except.error "boom" else Except.ok a)
      Registry.empty 0 0 3 "boom" 3 rfl rfl rfl⟩

/-- C3: First-argument authority (Lazy).  From the empty registry, a first
request for `k` with arguments `a` followed by a request for `k` with
different arguments `b` hands `construct k a` to both callers: the second
request does not run the constructor (its record's `constructed` flag is
`false`) and its arguments `b` are discarded; the stored instance is the
one built from `a`. -/
theorem first_argument_authority [DecidableEq K] (construct : K → A → I)
    (k : K) (a b : A) (_hne : a ≠ b) :
    (runLazy construct Registry.empty [(k, a), (k, b)]).2 =
      [⟨k, construct k a, true⟩, ⟨k, construct k a, false⟩] ∧
    (runLazy construct Registry.empty [(k, a), (k, b)]).1 k = some (construct k a) := by
  have h1 : lazyCall construct (Registry.empty : Registry K I) k a =
      ⟨Registry.empty.store k (construct k a), construct k a, true, 1⟩ :=
    lazyCall_new construct Registry.empty k a rfl
  have h2 : lazyCall construct (Registry.empty.store k (construct k a)) k b =
      ⟨Registry.empty.store k (construct k a), construct k a, false, 1⟩ :=
    lazyCall_stored _ _ _ _ _ (Registry.store_self _ _ _)
  simp [runLazy, h1, h2, Registry.store_self]

theorem first_argument_authority_witness :
    (10 : Nat) ≠ 20 ∧
    ((runLazy (fun _ a => a) Registry.empty [((0 : Nat), (10 : Nat)), (0, 20)]).2 =
      [⟨0, 10, true⟩, ⟨0, 10, false⟩] ∧
     (runLazy (fun _ a => a) Registry.empty [((0 : Nat), (10 : Nat)), (0, 20)]).1 0 =
      some 10) :=
  ⟨by decide, first_argument_authority (fun _ a => a) 0 10 20 (by decide)⟩

/-- C4: Eager no-op arguments.  For an Eager managed type `k`, the single
instance is built at class-definition time by `eagerNew` from the
no-argument construction `constructDefault k` (the metaclass `__new__`
calls `type.__call__(new_cls)` with no caller arguments), and every later
request, whatever its arguments `a`, returns exactly that
default-constructed instance; `a` has no effect on it. -/
theorem eager_noop_arguments [DecidableEq K] (constructDefault : K → I)
    (reg : Registry K I) (k : K) (a : A) :
    eagerCall (eagerNew constructDefault reg k) k a = some (constructDefault k) := by
  simp [eagerCall, eagerNew, Registry.store]

/-- C5: Audit log contents.  A fresh logger (file absent, so created empty)
that completes the audit calls `ps` ends with its counter at `N = ps.length`
(each call having incremented it by exactly one), and the durable file
content is exactly the concatenation, in call order, of the lines
`"<timestamp>: <message>; counter: <n>\n"` with counter values 1, ..., N
(`expectedLog 0 ps`); when timestamps and messages are newline-free the
content therefore holds exactly N lines.  Durability: `os.write` is
unbuffered and each call ends with `os.fsync`, so the modelled content is
on disk before the call returns. -/
theorem audit_log_contents (filename : String) (ps : List (String × String))
    (hnl : ∀ p ∈ ps, '\n' ∉ (Prod.fst p).data ∧ '\n' ∉ (Prod.snd p).data) :
    FileAuditManager.runAudit (FileAuditManager.init filename none) ps =
      Except.ok { filename := filename, counter := ps.length,
                  fd := some ⟨expectedLog 0 ps, (expectedLog 0 ps).length⟩ } ∧
    (expectedLog 0 ps).count '\n' = ps.length := by
  have h := runAudit_ok ps (FileAuditManager.init filename none) ⟨[], 0⟩ rfl rfl
  constructor
  · simpa [FileAuditManager.init] using h
  · exact expectedLog_count_newline ps 0 hnl

theorem audit_log_contents_witness :
    (∀ p ∈ [(("2025-06-01 09:00:00" : String), ("hello" : String)),
            ("2025-06-01 09:00:01", "world")],
        '\n' ∉ (Prod.fst p).data ∧ '\n' ∉ (Prod.snd p).data) ∧
    (FileAuditManager.runAudit (FileAuditManager.init "audit_lazy.log" none)
        [("2025-06-01 09:00:00", "hello"), ("2025-06-01 09:00:01", "world")] =
      Except.ok { filename := "audit_lazy.log", counter := 2,
                  fd := some ⟨expectedLog 0 [("2025-06-01 09:00:00", "hello"),
                                ("2025-06-01 09:00:01", "world")],
                              (expectedLog 0 [("2025-06-01 09:00:00", "hello"),
                                ("2025-06-01 09:00:01", "world")]).length⟩ } ∧
     (expectedLog 0 [("2025-06-01 09:00:00", "hello"),
        ("2025-06-01 09:00:01", "world")]).count '\n' = 2) :=
  ⟨by decide, audit_log_contents "audit_lazy.log"
    [("2025-06-01 09:00:00", "hello"), ("2025-06-01 09:00:01", "world")] (by decide)⟩

/-- C6 (code bug): the audit file is opened `os.O_WRONLY | os.O_CREAT`
without `O_APPEND`, so the descriptor starts at offset 0; the first audit
call of a logger constructed over a file that already has content writes
its line over the old bytes instead of after them.  At this failing input
(one pre-existing line in the file), after one audit call the file content
is the new line followed only by whatever old bytes lay beyond it, and the
file no longer starts with the previously present bytes — contradicting
the append-only contract. -/
theorem audit_overwrites_preexisting :
    contentAfter
        (FileAuditManager.runAudit
          (FileAuditManager.init "audit_lazy.log" (some preexistingContent))
          [("2025-06-02 10:00:00", "first entry of the new run")]) =
      auditLine "2025-06-02 10:00:00" "first entry of the new run" 1 ++
        preexistingContent.drop
          (auditLine "2025-06-02 10:00:00" "first entry of the new run" 1).length ∧
    (contentAfter
        (FileAuditManager.runAudit
          (FileAuditManager.init "audit_lazy.log" (some preexistingContent))
          [("2025-06-02 10:00:00", "first entry of the new run")])).take
        preexistingContent.length ≠ preexistingContent := by
  constructor <;> decide

/-- C7 (counterexample): a second invocation of `__del__` is not a guarded
no-op.  On a freshly constructed logger the first `__del__` closes the
descriptor and sets `__fd = None`; the second invocation then executes
`os.close(None)`, which raises a `TypeError`. -/
theorem del_second_invocation_raises :
    FileAuditManager.del (FileAuditManager.init "audit_lazy.log" none) =
      Except.ok { filename := "audit_lazy.log", counter := 0, fd := none } ∧
    FileAuditManager.del { filename := "audit_lazy.log", counter := 0, fd := none } =
      Except.error "TypeError" := by
  constructor <;> rfl

/-- C7 (amended): shutdown releases the owned file handle exactly once —
the first `__del__` invocation closes the descriptor and clears `__fd`, and
no later invocation can release it again — but a second invocation raises a
`TypeError` from `os.close(None)` rather than being a guarded no-op. -/
theorem del_releases_once_then_errors (s : FileAuditManager) (f : FileState)
    (h : s.fd = some f) :
    FileAuditManager.del s = Except.ok { s with fd := none } ∧
    FileAuditManager.del { s with fd := none } = Except.error "TypeError" := by
  constructor
  · simp [FileAuditManager.del, h]
  · simp [FileAuditManager.del]

theorem del_releases_once_then_errors_witness :
    (FileAuditManager.init "audit_lazy.log" none).fd = some ⟨[], 0⟩ ∧
    (FileAuditManager.del (FileAuditManager.init "audit_lazy.log" none) =
      Except.ok { FileAuditManager.init "audit_lazy.log" none with fd := none } ∧
     FileAuditManager.del { FileAuditManager.init "audit_lazy.log" none with fd := none } =
      Except.error "TypeError") :=
  ⟨rfl, del_releases_once_then_errors (FileAuditManager.init "audit_lazy.log" none) ⟨[], 0⟩ rfl⟩

/-- C8 (counterexample): on the lazy generator starting at 0, the 20
returned values are 1 through 20 — `get_next_number` increments before
returning, so 0 is never returned and the multiset of returns is not
{0, ..., 19}. -/
theorem lazy_sequence_from_zero_returns_one_to_twenty :
    (SequenceGeneratorLazy.run ⟨0⟩ 20).2 =
      [1, 2, 3, 4, 5, 6, 7, 8, 9, 10, 11, 12, 13, 14, 15, 16, 17, 18, 19, 20] ∧
    (0 : Int) ∉ (SequenceGeneratorLazy.run ⟨0⟩ 20).2 := by
  constructor <;> decide

/-- C8 (amended): 20 atomic `get_next_number` calls (for example 4 callers
of 5 calls each, in any serialization order) on the lazy instance starting
at 0 return the multiset {1, ..., 20}: no duplicates and no gaps, with the
counter left at 20. -/
theorem lazy_sequence_twenty_calls_multiset :
    Multiset.ofList (SequenceGeneratorLazy.run ⟨0⟩ 20).2 =
      Multiset.ofList ((List.range 20).map (fun i => (i : Int) + 1)) ∧
    (SequenceGeneratorLazy.run ⟨0⟩ 20).2.Nodup ∧
    (SequenceGeneratorLazy.run ⟨0⟩ 20).1.current = 20 := by
  have h : (SequenceGeneratorLazy.run ⟨0⟩ 20).2 =
      (List.range 20).map (fun i => (i : Int) + 1) := by decide
  exact ⟨congrArg Multiset.ofList h, by decide, by decide⟩

/-- C9 (counterexample): the two sequence-generator variants are the same
function of the counter state, not incompatible ones: both
`get_next_number` bodies are `self.current += 1; return self.current`, and
at `current = 0` both return the post-increment value 1 (neither is
return-then-increment). -/
theorem sequence_variants_same_function :
    (fun c : Int => ((SequenceGeneratorLazy.get_next_number ⟨c⟩).1.current,
                     (SequenceGeneratorLazy.get_next_number ⟨c⟩).2)) =
      (fun c : Int => ((SequenceGeneratorEager.get_next_number ⟨c⟩).1.current,
                       (SequenceGeneratorEager.get_next_number ⟨c⟩).2)) ∧
    (SequenceGeneratorLazy.get_next_number ⟨0⟩).2 = 1 ∧
    (SequenceGeneratorEager.get_next_number ⟨0⟩).2 = 1 :=
  ⟨rfl, rfl, rfl⟩

/-- C9 (amended): both variants implement one and the same
increment-then-return semantics — on any counter state `c`,
`get_next_number` of either variant moves the state to `c + 1` and returns
the post-increment value `c + 1`. -/
theorem sequence_variants_increment_then_return (c : Int) :
    SequenceGeneratorLazy.get_next_number ⟨c⟩ = (⟨c + 1⟩, c + 1) ∧
    SequenceGeneratorEager.get_next_number ⟨c⟩ = (⟨c + 1⟩, c + 1) :=
  ⟨rfl, rfl⟩

/-- C10 (counterexample): even when the requested key's instance is already
stored (Ready), `SingletonMetaLazy.__call__` acquires the shared
metaclass-level lock (one acquisition, not zero): there is no lock-free
fast path for the Ready case. -/
theorem ready_request_still_acquires_lock :
    (lazyCall (fun (_ : Nat) (a : Nat) => a)
        (Registry.empty.store 0 42) 0 7).lockAcquisitions = 1 ∧
    ¬ (lazyCall (fun (_ : Nat) (a : Nat) => a)
        (Registry.empty.store 0 42) 0 7).lockAcquisitions = 0 := by
  constructor <;> decide

/-- C10 (amended): the lazy metaclass holds one `Lock`, stored on the
metaclass itself and hence shared by every managed type, and `__call__`
acquires it exactly once on every request — whether or not the requested
instance already exists.  There is no per-key lock and no lock-free Ready
read, so a slow construction for one key delays requests for every other
key. -/
theorem lazy_call_always_acquires_shared_lock [DecidableEq K]
    (construct : K → A → I) (reg : Registry K I) (k : K) (a : A) :
    (lazyCall construct reg k a).lockAcquisitions = 1 := by
  cases hr : reg k
  · rw [lazyCall_new construct reg k a hr]
  · rw [lazyCall_stored construct reg k a _ hr]
